import Mathlib

/-!
# Verification of the gogolem-test guest and its host-facing contracts

This file gives a shallow embedding of the `gogolem-test` repository:
the guest logic in `main.go` (counter `Add`/`Get`, `Publish`, `Pause`)
and the host primitives it consumes, declared in `wit/deps/io/streams.wit`
(WASI byte streams) and the `golem:api/host` interface (promises).

The host-side implementations of the stream and promise primitives are
not part of the repository (only their WIT declarations and the guest
callers are), so those operations are modelled from the specification's
contract text; the guest functions are translated directly from
`main.go`.
-/

set_option autoImplicit false

namespace Gogolem

/-! ## Promise subsystem (`golem:api/host`)

The WIT interface declares `golem-create-promise`, `golem-await-promise`,
`golem-complete-promise` and `golem-delete-promise` over a `promise-id`
record (worker id plus oplog index). -/

/-- A promise id: worker identity plus oplog (sequence) index.  We keep the
worker identity abstract as a string and the sequence position as a `Nat`,
mirroring the `promise-id { worker-id, oplog-idx }` record. -/
structure PromiseId where
  workerName : String
  oplogIdx : Nat
deriving DecidableEq, Repr

/-- Modelled from the spec: lifecycle of one promise —
`created` (no result yet) → `completed` (carries an opaque byte payload)
or `deleted` (discarded, no payload); both `completed` and `deleted` are
terminal. -/
inductive PromiseState where
  | created : PromiseState
  | completed : List Nat → PromiseState
  | deleted : PromiseState
deriving DecidableEq, Repr

/-- Modelled from the spec: the observable state of a single promise
together with its awaiters.  `pending` holds the ids of callers whose
`await` has suspended them (parked awaiters); `delivered` records, for
each awaiter resumed so far, the payload it observed. -/
structure PromiseSys where
  state : PromiseState
  pending : List Nat
  delivered : List (Nat × List Nat)
deriving DecidableEq, Repr

/-- The system for a freshly created promise: state `created`, no
awaiters parked, nothing delivered. -/
def PromiseSys.init : PromiseSys :=
  { state := PromiseState.created, pending := [], delivered := [] }

/-- Modelled from the spec: `complete(promise_id, bytes) -> bool` —
returns whether the promise was transitioned from `created` to
`completed` by this call (false if already completed or deleted).  On
the successful transition every parked awaiter is resumed with the
payload; otherwise nothing changes. -/
def completePromise (sys : PromiseSys) (payload : List Nat) : PromiseSys × Bool :=
  match sys.state with
  | PromiseState.created =>
      ({ state := PromiseState.completed payload
         pending := []
         delivered := sys.delivered ++ sys.pending.map (fun a => (a, payload)) }, true)
  | PromiseState.completed _ => (sys, false)
  | PromiseState.deleted => (sys, false)

/-- Modelled from the spec: the start of an `await(promise_id)` call by
awaiter `aid` — awaiting an already-`completed` promise returns
immediately with the stored payload (recorded in `delivered`); awaiting
a `created` promise suspends the caller (parks `aid` in `pending`). -/
def awaitPromise (sys : PromiseSys) (aid : Nat) : PromiseSys :=
  match sys.state with
  | PromiseState.created => { sys with pending := sys.pending ++ [aid] }
  | PromiseState.completed p => { sys with delivered := sys.delivered ++ [(aid, p)] }
  | PromiseState.deleted => sys

/-- Modelled from the spec: `delete(promise_id)` discards a promise that
has not been resolved; no transition leaves `completed` or `deleted`. -/
def deletePromise (sys : PromiseSys) : PromiseSys :=
  match sys.state with
  | PromiseState.created => { sys with state := PromiseState.deleted }
  | _ => sys

/-- An event against a single promise: an `await` starting, a
`complete` call, or a `delete` call. -/
inductive PromiseEvent where
  | awaitStart : Nat → PromiseEvent
  | complete : List Nat → PromiseEvent
  | delete : PromiseEvent
deriving DecidableEq, Repr

/-- Apply one event to the promise system (the boolean result of a
`complete` call is dropped here; it is recovered by `completePromise`
directly where a claim needs it). -/
def stepPromise (sys : PromiseSys) : PromiseEvent → PromiseSys
  | PromiseEvent.awaitStart aid => awaitPromise sys aid
  | PromiseEvent.complete p => (completePromise sys p).1
  | PromiseEvent.delete => deletePromise sys

/-- Run a list of events in order. -/
def runPromise (sys : PromiseSys) : List PromiseEvent → PromiseSys
  | [] => sys
  | e :: es => runPromise (stepPromise sys e) es

/-- The invariant holding after a successful completion with payload
`p`: the state is frozen at `completed p`, no awaiter is parked, and
every delivered payload is `p`. -/
def CompletedInv (p : List Nat) (sys : PromiseSys) : Prop :=
  sys.state = PromiseState.completed p ∧ sys.pending = [] ∧
    ∀ e ∈ sys.delivered, e.2 = p

/-! ## Stream I/O subsystem (`wasi:io/streams`)

The WIT file declares non-blocking `read`/`skip`/`write` operations,
their `blocking-` variants, `write-zeroes`, `splice` and `forward` over
`input-stream`/`output-stream` handles, with a two-valued
`stream-status` (`open`/`ended`). -/

/-- The `stream-status` enum from `streams.wit`: `open` — the stream may still
produce (or accept) data; `ended` — it is permanently finished. -/
inductive StreamStatus where
  | «open» : StreamStatus
  | ended : StreamStatus
deriving DecidableEq, Repr

/-- Modelled from the spec: an input byte stream.  `pending` holds, in
order, every byte the stream will still produce; the first `avail` of
them are promptly available (a non-blocking read can return them now);
`closing` says that after `pending` is drained the source ends (the
stream becomes `ended`) rather than staying `open` awaiting more
data. -/
structure InputStream where
  pending : List Nat
  avail : Nat
  closing : Bool
deriving DecidableEq, Repr

/-- The status an input stream reports right now: `ended` exactly when
it is drained and its source has closed. -/
def inputStatus (s : InputStream) : StreamStatus :=
  if s.closing ∧ s.pending = [] then StreamStatus.ended else StreamStatus.«open»

/-- Modelled from the spec: `read(stream, max_len)` — non-blocking;
returns up to `max_len` of the promptly available bytes together with
the stream's status, never more than requested; a `max_len` of zero
succeeds trivially with zero bytes and the current status and no state
change; zero bytes with status `open` means "no data promptly
available". -/
def readStream (s : InputStream) (len : Nat) :
    (List Nat × StreamStatus) × InputStream :=
  let n := min len s.avail
  (⟨s.pending.take n,
    if s.closing ∧ s.pending.drop n = [] then StreamStatus.ended
    else StreamStatus.«open»⟩,
   { pending := s.pending.drop n, avail := s.avail - n, closing := s.closing })

/-- Modelled from the spec: `skip(stream, max_len)` — same contract as
`read` but discards the bytes, returning only the count skipped. -/
def skipStream (s : InputStream) (len : Nat) :
    (Nat × StreamStatus) × InputStream :=
  let r := readStream s len
  ((r.1.1.length, r.1.2), r.2)

/-- Modelled from the spec: the internal wait of a blocking input
operation — it resolves once at least one byte is promptly available or
the stream has ended.  When data is due but not prompt it makes (at
least) one byte available; when the stream is drained-and-closed or
already has prompt data it changes nothing. -/
def waitInput (s : InputStream) : InputStream :=
  if s.avail = 0 ∧ s.pending ≠ [] then { s with avail := 1 } else s

/-- Modelled from the spec: `blocking_read(stream, max_len)` —
semantically identical to `read` except it waits until at least one
byte (or `ended`) is guaranteed before performing the read.  `none`
means the wait never resolves (the stream is open, empty, and its
source never sends more and never closes — the caller stays
suspended). -/
def blockingRead (s : InputStream) (len : Nat) :
    Option ((List Nat × StreamStatus) × InputStream) :=
  if s.pending = [] ∧ s.closing = false then none
  else some (readStream (waitInput s) len)

/-- One guest-visible input-stream call: a `read` or a `skip`, each
with its `max_len`. -/
inductive InOp where
  | read : Nat → InOp
  | skip : Nat → InOp
deriving DecidableEq, Repr

/-- Run a sequence of input-stream calls, recording for each call the
number of bytes it produced and the status it returned. -/
def runInput (s : InputStream) : List InOp → List (Nat × StreamStatus) × InputStream
  | [] => ([], s)
  | InOp.read len :: ops =>
      let r := readStream s len
      let rest := runInput r.2 ops
      ((r.1.1.length, r.1.2) :: rest.1, rest.2)
  | InOp.skip len :: ops =>
      let r := skipStream s len
      let rest := runInput r.2 ops
      (r.1 :: rest.1, rest.2)

/-- A drained input stream: its source has closed and no bytes remain.
Such a stream reports `ended` and never produces bytes again. -/
def Drained (s : InputStream) : Prop :=
  s.closing = true ∧ s.pending = []

/-- Modelled from the spec: an output byte stream.  `written` is the
sequence of bytes accepted so far; `cap` is how many further bytes a
non-blocking write can accept promptly; `closed` says the reading side
is gone (status `ended`; per the WIT contract further writes are still
permitted). -/
structure OutputStream where
  written : List Nat
  cap : Nat
  closed : Bool
deriving DecidableEq, Repr

/-- The status an output stream reports: `ended` once the reading side
has closed, `open` otherwise. -/
def outputStatus (o : OutputStream) : StreamStatus :=
  if o.closed then StreamStatus.ended else StreamStatus.«open»

/-- Modelled from the spec: `write(stream, bytes)` — non-blocking;
accepts promptly up to the stream's capacity, returning the count
actually accepted and the stream's status; writing zero bytes succeeds
and reports the current status. -/
def writeStream (o : OutputStream) (buf : List Nat) :
    (Nat × StreamStatus) × OutputStream :=
  let n := min buf.length o.cap
  ((n, outputStatus o),
   { written := o.written ++ buf.take n, cap := o.cap - n, closed := o.closed })

/-- Modelled from the spec: the internal wait of a blocking output
operation — it resolves once at least one byte can be written (the WIT
contract keeps writes permitted even on an `ended` output stream, so
this wait always resolves). -/
def waitOutput (o : OutputStream) : OutputStream :=
  if o.cap = 0 then { o with cap := 1 } else o

/-- Modelled from the spec: `blocking_write(stream, bytes)` — like
`write` but waits until at least one byte can be written; writing zero
bytes still succeeds immediately with the current status. -/
def blockingWrite (o : OutputStream) (buf : List Nat) :
    (Nat × StreamStatus) × OutputStream :=
  if buf = [] then writeStream o buf else writeStream (waitOutput o) buf

/-- Modelled from the spec: `write_zeroes(stream, len)` — writes up to
`len` zero bytes without the caller materializing them, returning the
count written and the status. -/
def writeZeroes (o : OutputStream) (len : Nat) :
    (Nat × StreamStatus) × OutputStream :=
  let n := min len o.cap
  ((n, outputStatus o),
   { written := o.written ++ List.replicate n 0, cap := o.cap - n
     closed := o.closed })

/-- Modelled from the spec: `blocking_write_zeroes(stream, len)` — like
`write_zeroes` but waits until at least one byte can be written. -/
def blockingWriteZeroes (o : OutputStream) (len : Nat) :
    (Nat × StreamStatus) × OutputStream :=
  if len = 0 then writeZeroes o len else writeZeroes (waitOutput o) len

/-- Modelled from the spec: `splice(out, in, len)` — moves up to `len`
bytes from an input stream to an output stream, suspending the caller
until the full transfer completes or the source ends; the blocking
write side always drains, so only the input can hold it up.  `none`
means the caller stays suspended (the input is open but will never
supply `len` bytes). -/
def spliceStream (o : OutputStream) (i : InputStream) (len : Nat) :
    Option ((Nat × StreamStatus) × OutputStream × InputStream) :=
  if i.pending.length < len ∧ i.closing = false then none
  else
    let n := min len i.pending.length
    some ((n,
           if i.closing ∧ i.pending.drop n = [] then StreamStatus.ended
           else StreamStatus.«open»),
          { written := o.written ++ i.pending.take n, cap := o.cap
            closed := o.closed },
          { pending := i.pending.drop n, avail := i.avail - n
            closing := i.closing })

/-! ## Guest logic (`main.go`)

`main.go` keeps a package-level `var total uint64`, a value-receiver
type `GogolemTestImpl` (whose own `total` field is never used by the
methods), and the exported operations `Add`, `Get`, `Publish` and
`Pause`. -/

/-- Go `uint64` arithmetic is modulo `2^64`. -/
def U64 : Nat := 2 ^ 64

/-- The `GogolemTestImpl` struct of `main.go`; its `total` field exists
in the source but no method reads or writes it — the methods act on the
package-level counter. -/
structure GogolemTestImpl where
  total : Nat
deriving DecidableEq, Repr

/-- Embeds `func (e GogolemTestImpl) Add(value uint64) { total += value }` —
the package-level counter `total` (passed and returned explicitly here)
is incremented with `uint64` wrap-around; the receiver `e` is unused. -/
def GogolemTestImpl.Add (_e : GogolemTestImpl) (total value : Nat) : Nat :=
  (total + value) % U64

/-- Embeds `func (e GogolemTestImpl) Get() uint64 { return total }` — returns
the package-level counter; the receiver `e` is unused. -/
def GogolemTestImpl.Get (_e : GogolemTestImpl) (total : Nat) : Nat :=
  total

/-- Run a sequence of `Add` calls, each with its own receiver value and
argument, threading the package-level counter through. -/
def runAdds (total : Nat) : List (GogolemTestImpl × Nat) → Nat
  | [] => total
  | (e, v) :: calls => runAdds (e.Add total v) calls

/-- The `Result[struct{}, string]` value `Publish` builds: `Set`
produces `ok`, `SetErr` produces `err` with the message. -/
inductive GoResult where
  | ok : GoResult
  | err : String → GoResult
deriving DecidableEq, Repr

/-- Embeds `fmt.Sprintln(err)`: the error's text followed by a newline. -/
def sprintln (s : String) : String :=
  s ++ "\n"

/-- The `*http.Response` as `Publish` consumes it: reading its body
either fails or yields the body bytes (`ioutil.ReadAll(resp.Body)`). -/
structure HttpResponse where
  bodyRead : Except String (List Nat)
deriving Repr

/-- Embeds `func (e GogolemTestImpl) Publish() Result[struct{}, string]` from
`main.go`, with the external effects passed in as oracles: `postRes` is
the outcome of `http.Post` (the marshalled request body is built from
`total` but cannot fail in a way the code observes — the `json.Marshal`
error is discarded), and `unmarshal` is `json.Unmarshal` into
`ResponseBody` yielding its `Message`.  On the first failing step the
result is `SetErr(fmt.Sprintln(err))`; otherwise `Set(struct{}{})`.
The package-level counter `total` is threaded through unchanged — no
branch of the function writes it. -/
def Publish (total : Nat) (postRes : Except String HttpResponse)
    (unmarshal : List Nat → Except String String) : GoResult × Nat :=
  match postRes with
  | Except.error e => (GoResult.err (sprintln e), total)
  | Except.ok resp =>
    match resp.bodyRead with
    | Except.error e => (GoResult.err (sprintln e), total)
    | Except.ok body =>
      match unmarshal body with
      | Except.error e => (GoResult.err (sprintln e), total)
      | Except.ok _message => (GoResult.ok, total)

/-- Modelled from the spec: the host-side record of the promises of one
worker, indexed by oplog index (the Nth suspension point). -/
structure HostState where
  worker : String
  promises : List PromiseState
deriving DecidableEq, Repr

/-- Modelled from the spec: `golem-create-promise` — allocates a new
promise in state `created`, scoped to the caller's worker identity, at
the next oplog index; always succeeds. -/
def golemCreatePromise (h : HostState) : PromiseId × HostState :=
  (⟨h.worker, h.promises.length⟩,
   { h with promises := h.promises ++ [PromiseState.created] })

/-- Modelled from the spec: the result `golem-await-promise` can hand
back right now — `some payload` once the promise is `completed`, `none`
while the caller remains suspended (promise still `created`, or deleted
or unknown, where the await does not resolve). -/
def golemAwaitPromise (h : HostState) (pid : PromiseId) : Option (List Nat) :=
  match h.promises[pid.oplogIdx]? with
  | some (PromiseState.completed p) => some p
  | _ => none

/-- Modelled from the spec: the external completing party's
`golem-complete-promise` against the host record — transitions
`created` to `completed payload` and reports whether this call did
the transition. -/
def golemCompletePromise (h : HostState) (pid : PromiseId) (payload : List Nat) :
    HostState × Bool :=
  match h.promises[pid.oplogIdx]? with
  | some PromiseState.created =>
      ({ h with promises := h.promises.set pid.oplogIdx (PromiseState.completed payload) },
       true)
  | _ => (h, false)

/-- Embeds `func (e GogolemTestImpl) Pause()` from `main.go`: create one fresh
promise, then await it.  Returns the host state after Pause's own
calls, the promise id it awaits, and `none` while still suspended or
`some ()` once the await has resolved (the payload bytes are
discarded — `Pause` returns nothing). -/
def Pause (h : HostState) : HostState × PromiseId × Option Unit :=
  let r := golemCreatePromise h
  (r.2, r.1, (golemAwaitPromise r.2 r.1).map (fun _ => ()))

/-- Once set up, the completed-state invariant is preserved by every
event: no transition leaves `completed`, awaits resolve immediately
with the stored payload, and further completes are no-ops. -/
theorem completedInv_step (p : List Nat) (sys : PromiseSys) (e : PromiseEvent)
    (h : CompletedInv p sys) : CompletedInv p (stepPromise sys e) := by
  obtain ⟨hst, hpend, hdel⟩ := h
  cases e with
  | awaitStart aid =>
      refine ⟨?_, ?_, ?_⟩ <;>
        simp [stepPromise, awaitPromise, hst, hpend]
      intro a q hq
      rcases hq with hq | hq
      · exact hdel (a, q) hq
      · exact hq.2
  | complete q =>
      refine ⟨?_, ?_, ?_⟩ <;>
        simp [stepPromise, completePromise, hst, hpend]
      intro a r hr
      exact hdel (a, r) hr
  | delete =>
      refine ⟨?_, ?_, ?_⟩ <;>
        simp [stepPromise, deletePromise, hst, hpend]
      intro a r hr
      exact hdel (a, r) hr

/-- The completed-state invariant is preserved by any run of events. -/
theorem completedInv_run (p : List Nat) (sys : PromiseSys) (evs : List PromiseEvent)
    (h : CompletedInv p sys) : CompletedInv p (runPromise sys evs) := by
  induction evs generalizing sys with
  | nil => exact h
  | cons e es ih => exact ih _ (completedInv_step p sys e h)

/-- Under the completed-state invariant, a `complete` call returns
`false` and changes nothing. -/
theorem complete_of_completedInv (p q : List Nat) (sys : PromiseSys)
    (h : CompletedInv p sys) : completePromise sys q = (sys, false) := by
  obtain ⟨hst, -, -⟩ := h
  simp [completePromise, hst]

/-- C1: For every promise P and payloads payload1, payload2: if
`complete(P, payload1)` succeeds (returns true), a subsequent
`complete(P, payload2)` returns false, and every awaiter of P — whether
its await started before or after either complete call — observes
payload1 and never payload2; the first completion is the single
terminal, immutable transition.  Formally: from any state of the
promise in which the promise is still `created` and nothing has yet
been delivered (awaiters so far are parked in `pending`), completing
with `p1` returns `true`; thereafter, after any further sequence of
events (more awaits, completes or deletes), the state is still
`completed p1`, every payload ever delivered to an awaiter is `p1`,
and a further `complete` with any `p2` returns `false`. -/
theorem promise_first_completion_wins (sys : PromiseSys) (p1 p2 : List Nat)
    (evs : List PromiseEvent)
    (hcreated : sys.state = PromiseState.created)
    (hdel : sys.delivered = []) :
    (completePromise sys p1).2 = true ∧
    (let final := runPromise (completePromise sys p1).1 evs
     final.state = PromiseState.completed p1 ∧
     (∀ e ∈ final.delivered, e.2 = p1) ∧
     (completePromise final p2).2 = false) := by
  have hinv : CompletedInv p1 (completePromise sys p1).1 := by
    refine ⟨?_, ?_, ?_⟩ <;> simp [completePromise, hcreated, hdel]
  have hfin := completedInv_run p1 _ evs hinv
  refine ⟨by simp [completePromise, hcreated], hfin.1, hfin.2.2, ?_⟩
  rw [complete_of_completedInv p1 p2 _ hfin]

/-- Closed witness for `promise_first_completion_wins`: a concrete run
with one awaiter parked before completion, a second complete, and a
late awaiter. -/
theorem promise_first_completion_wins_witness :
    (({ state := PromiseState.created, pending := [7], delivered := [] } :
        PromiseSys).state = PromiseState.created ∧
     ({ state := PromiseState.created, pending := [7], delivered := [] } :
        PromiseSys).delivered = []) ∧
    ((completePromise
        { state := PromiseState.created, pending := [7], delivered := [] }
        [1, 2]).2 = true ∧
     (let final := runPromise
        (completePromise
          { state := PromiseState.created, pending := [7], delivered := [] }
          [1, 2]).1
        [PromiseEvent.complete [9], PromiseEvent.awaitStart 8]
      final.state = PromiseState.completed [1, 2] ∧
      (∀ e ∈ final.delivered, e.2 = [1, 2]) ∧
      (completePromise final [9]).2 = false)) :=
  ⟨⟨rfl, rfl⟩,
    promise_first_completion_wins
      { state := PromiseState.created, pending := [7], delivered := [] }
      [1, 2] [9] [PromiseEvent.complete [9], PromiseEvent.awaitStart 8]
      rfl rfl⟩

/-- C2: For every promise P and payload: an `await(P)` issued while P is
in state `created` suspends the caller (the awaiter is parked, with no
payload delivered to it) and returns exactly `payload` once
`complete(P, payload)` is invoked; an `await(P)` issued after
`complete(P, payload)` returns `payload` immediately (the payload is
delivered at once) without suspending (the awaiter is never parked). -/
theorem await_before_and_after_complete (sys : PromiseSys) (aid : Nat)
    (payload : List Nat)
    (hcreated : sys.state = PromiseState.created) :
    (let sys1 := awaitPromise sys aid
     aid ∈ sys1.pending ∧ sys1.delivered = sys.delivered ∧
     (aid, payload) ∈ ((completePromise sys1 payload).1).delivered) ∧
    (∀ sys2 : PromiseSys, sys2.state = PromiseState.completed payload →
      (aid, payload) ∈ (awaitPromise sys2 aid).delivered ∧
      (awaitPromise sys2 aid).pending = sys2.pending) := by
  constructor
  · refine ⟨?_, ?_, ?_⟩ <;> simp [awaitPromise, completePromise, hcreated]
  · intro sys2 h2
    constructor <;> simp [awaitPromise, h2]

/-- Closed witness for `await_before_and_after_complete` at a concrete
fresh promise and a concrete completed promise. -/
theorem await_before_and_after_complete_witness :
    (PromiseSys.init.state = PromiseState.created) ∧
    ((let sys1 := awaitPromise PromiseSys.init 3
      3 ∈ sys1.pending ∧ sys1.delivered = PromiseSys.init.delivered ∧
      (3, [5]) ∈ ((completePromise sys1 [5]).1).delivered) ∧
     (∀ sys2 : PromiseSys, sys2.state = PromiseState.completed [5] →
       (3, [5]) ∈ (awaitPromise sys2 3).delivered ∧
       (awaitPromise sys2 3).pending = sys2.pending)) :=
  ⟨rfl, await_before_and_after_complete PromiseSys.init 3 [5] rfl⟩

/-- A `read` call that reports `ended` leaves the stream drained. -/
theorem drained_of_read_ended (s : InputStream) (len : Nat)
    (h : (readStream s len).1.2 = StreamStatus.ended) :
    Drained (readStream s len).2 := by
  dsimp [readStream] at h ⊢
  split at h
  next hc => exact ⟨hc.1, hc.2⟩
  next => cases h

/-- Reading any length from a drained stream returns zero bytes with
status `ended` and leaves it drained. -/
theorem read_drained (s : InputStream) (len : Nat) (h : Drained s) :
    (readStream s len).1 = ([], StreamStatus.ended) ∧
      Drained (readStream s len).2 := by
  obtain ⟨hc, hp⟩ := h
  simp [readStream, Drained, hc, hp]

/-- Every `read`/`skip` call issued against a drained stream reports
zero bytes and status `ended`. -/
theorem runInput_drained (ops : List InOp) (s : InputStream) (h : Drained s) :
    ∀ out ∈ (runInput s ops).1, out = (0, StreamStatus.ended) := by
  induction ops generalizing s with
  | nil => simp [runInput]
  | cons op ops ih =>
    cases op with
    | read len =>
      intro out hout
      have hr := read_drained s len h
      dsimp [runInput] at hout
      rcases List.mem_cons.mp hout with h1 | h1
      · rw [h1, hr.1]; rfl
      · exact ih _ hr.2 out h1
    | skip len =>
      intro out hout
      have hr := read_drained s len h
      dsimp [runInput, skipStream] at hout
      rcases List.mem_cons.mp hout with h1 | h1
      · rw [h1, hr.1]; rfl
      · exact ih _ hr.2 out h1

/-- C3: For every input stream S: once a `read` or `skip` call on S
returns status `ended`, every subsequent `read` or `skip` call on S
also returns status `ended` with zero bytes — the `ended` status is
sticky and S never produces bytes again.  (`skip` shares `read`'s
status and resulting state by definition, so the trigger is stated on
either; `runInput` records the byte/skip count and status of each
subsequent call.) -/
theorem ended_is_sticky (s : InputStream) (len : Nat) (ops : List InOp)
    (h : (readStream s len).1.2 = StreamStatus.ended ∨
         (skipStream s len).1.2 = StreamStatus.ended) :
    Drained (readStream s len).2 ∧
    (skipStream s len).2 = (readStream s len).2 ∧
    ∀ out ∈ (runInput (readStream s len).2 ops).1,
      out = (0, StreamStatus.ended) := by
  have hread : (readStream s len).1.2 = StreamStatus.ended := by
    rcases h with h | h
    · exact h
    · exact h
  have hd := drained_of_read_ended s len hread
  exact ⟨hd, rfl, runInput_drained ops _ hd⟩

/-- Closed witness for `ended_is_sticky`: a closing stream holding one
last byte; reading it reports `ended`, and the two calls after that
each report zero bytes and `ended`. -/
theorem ended_is_sticky_witness :
    ((readStream ⟨[5], 1, true⟩ 2).1.2 = StreamStatus.ended ∨
     (skipStream ⟨[5], 1, true⟩ 2).1.2 = StreamStatus.ended) ∧
    (Drained (readStream ⟨[5], 1, true⟩ 2).2 ∧
     (skipStream ⟨[5], 1, true⟩ 2).2 = (readStream ⟨[5], 1, true⟩ 2).2 ∧
     ∀ out ∈ (runInput (readStream ⟨[5], 1, true⟩ 2).2
         [InOp.read 3, InOp.skip 1]).1,
       out = (0, StreamStatus.ended)) :=
  ⟨Or.inl rfl,
   ended_is_sticky ⟨[5], 1, true⟩ 2 [InOp.read 3, InOp.skip 1] (Or.inl rfl)⟩

/-- C4: For every output stream `out`, input stream `in`, and length L:
`splice(out, in, L)` suspends the caller and returns only when L bytes
have been transferred from `in` to `out`, or `in` reports `ended`, or
an error occurs — it never returns with a transferred count below L
while `in` is still open.  Formally: the splice stays suspended
(`none`) exactly while the input is open but cannot ever supply L
bytes; whenever it returns, either the full L bytes were transferred or
the returned status is `ended`, and the transferred bytes are appended
to the output in order. -/
theorem splice_blocks_until_served (o : OutputStream) (i : InputStream)
    (len : Nat) :
    (spliceStream o i len = none ↔
      i.pending.length < len ∧ i.closing = false) ∧
    ∀ r, spliceStream o i len = some r →
      (r.1.1 = len ∨ r.1.2 = StreamStatus.ended) ∧
      r.2.1.written = o.written ++ i.pending.take r.1.1 := by
  constructor
  · dsimp [spliceStream]
    split
    next hcond => simp [hcond]
    next hcond => simp [hcond]
  · intro r hr
    dsimp [spliceStream] at hr
    split at hr
    next => cases hr
    next hcond =>
      obtain rfl : (⟨(min len i.pending.length,
            if i.closing ∧ i.pending.drop (min len i.pending.length) = []
            then StreamStatus.ended else StreamStatus.«open»),
          { written := o.written ++ i.pending.take (min len i.pending.length)
            cap := o.cap, closed := o.closed },
          { pending := i.pending.drop (min len i.pending.length)
            avail := i.avail - min len i.pending.length
            closing := i.closing }⟩ :
          (Nat × StreamStatus) × OutputStream × InputStream) = r :=
        Option.some.inj hr
      refine ⟨?_, rfl⟩
      by_cases hll : len ≤ i.pending.length
      · left
        exact Nat.min_eq_left hll
      · right
        have hlt : i.pending.length < len := Nat.lt_of_not_le hll
        have hcl : i.closing = true := by
          rcases Bool.eq_false_or_eq_true i.closing with hc | hc
          · exact hc
          · exact absurd ⟨hlt, hc⟩ hcond
        have hmin : min len i.pending.length = i.pending.length :=
          Nat.min_eq_right (Nat.le_of_lt hlt)
        simp [hmin, hcl]

/-- Closed witness for `splice_blocks_until_served`: splicing 3 bytes
out of a closing input that holds only 2 returns the 2 bytes with
status `ended`. -/
theorem splice_blocks_until_served_witness :
    spliceStream ⟨[], 0, false⟩ ⟨[4, 5], 2, true⟩ 3 =
      some ((2, StreamStatus.ended), ⟨[4, 5], 0, false⟩, ⟨[], 0, true⟩) ∧
    ((2, StreamStatus.ended).1 = 3 ∨
       (2, StreamStatus.ended).2 = StreamStatus.ended) ∧
    (⟨[4, 5], 0, false⟩ : OutputStream).written =
      ([] : List Nat) ++ [4, 5].take (2 : Nat) :=
  ⟨rfl,
   (splice_blocks_until_served ⟨[], 0, false⟩ ⟨[4, 5], 2, true⟩ 3).2
     ((2, StreamStatus.ended), ⟨[4, 5], 0, false⟩, ⟨[], 0, true⟩) rfl⟩

/-- C5: For every input stream S: `read(S, 0)` succeeds, returning an
empty byte sequence together with S's current status, and leaves the
stream's state (buffered bytes, position, status) unchanged. -/
theorem read_zero_is_noop (s : InputStream) :
    readStream s 0 = (([], inputStatus s), s) := by
  simp [readStream, inputStatus]

/-- C6: For every input stream S and `max_len > 0`: `blocking_read(S,
max_len)` returns either at least one byte or status `ended`, and apart
from waiting for readiness its result is identical to what `read(S,
max_len)` would return once data is available — it never returns zero
bytes with status `open`. -/
theorem blockingRead_progress (s : InputStream) (len : Nat)
    (hlen : 0 < len) :
    ∀ r, blockingRead s len = some r →
      (r.1.1 ≠ [] ∨ r.1.2 = StreamStatus.ended) ∧
      r = readStream (waitInput s) len ∧
      ¬(r.1.1 = [] ∧ r.1.2 = StreamStatus.«open») := by
  intro r hr
  dsimp [blockingRead] at hr
  split at hr
  next => cases hr
  next hcond =>
    obtain rfl : readStream (waitInput s) len = r := Option.some.inj hr
    have hmain : (readStream (waitInput s) len).1.1 ≠ [] ∨
        (readStream (waitInput s) len).1.2 = StreamStatus.ended := by
      by_cases hp : s.pending = []
      · right
        have hcl : s.closing = true := by
          rcases Bool.eq_false_or_eq_true s.closing with hc | hc
          · exact hc
          · exact absurd ⟨hp, hc⟩ hcond
        simp [readStream, waitInput, hp, hcl]
      · left
        have havail : 1 ≤ (waitInput s).avail := by
          dsimp [waitInput]
          split
          · exact Nat.le_refl 1
          next hw =>
            have : ¬ s.avail = 0 := fun h0 => hw ⟨h0, hp⟩
            exact Nat.one_le_iff_ne_zero.mpr this
        have hpend : (waitInput s).pending = s.pending := by
          dsimp [waitInput]
          split <;> rfl
        have hn : 0 < min len (waitInput s).avail :=
          Nat.lt_min.mpr ⟨hlen, havail⟩
        dsimp [readStream]
        rw [hpend]
        intro htake
        rcases List.take_eq_nil_iff.mp htake with h0 | h0
        · exact Nat.ne_of_gt hn h0
        · exact hp h0
    refine ⟨hmain, rfl, ?_⟩
    intro ⟨hnil, hopen⟩
    rcases hmain with hb | hb
    · exact hb hnil
    · rw [hopen] at hb
      cases hb

/-- Closed witness for `blockingRead_progress`: an open stream with one
byte due but not prompt; the blocking read waits and returns that
byte. -/
theorem blockingRead_progress_witness :
    (0 : Nat) < 2 ∧
    (blockingRead ⟨[9], 0, false⟩ 2 =
       some (([9], StreamStatus.«open»), ⟨[], 0, false⟩) ∧
     ((([9], StreamStatus.«open»), (⟨[], 0, false⟩ : InputStream)).1.1 ≠ [] ∨
        (([9], StreamStatus.«open»), (⟨[], 0, false⟩ : InputStream)).1.2 =
          StreamStatus.ended) ∧
     ((([9], StreamStatus.«open»), (⟨[], 0, false⟩ : InputStream)) =
        readStream (waitInput ⟨[9], 0, false⟩) 2) ∧
     ¬((([9], StreamStatus.«open»), (⟨[], 0, false⟩ : InputStream)).1.1 = [] ∧
       (([9], StreamStatus.«open»), (⟨[], 0, false⟩ : InputStream)).1.2 =
         StreamStatus.«open»)) :=
  ⟨Nat.zero_lt_two,
   rfl,
   blockingRead_progress ⟨[9], 0, false⟩ 2 Nat.zero_lt_two
     (([9], StreamStatus.«open»), ⟨[], 0, false⟩) rfl⟩

/-- The `write_zeroes` operation agrees with `write` of a materialized buffer of
zeroes, for every output stream. -/
theorem writeZeroes_eq_write_aux (o : OutputStream) (len : Nat) :
    writeZeroes o len = writeStream o (List.replicate len 0) := by
  have hmin : min (min len o.cap) len = min len o.cap :=
    Nat.min_eq_left (Nat.min_le_left len o.cap)
  simp [writeZeroes, writeStream, List.take_replicate, hmin]

/-- C7: For every output stream S and length `len`: `write_zeroes(S,
len)` returns the same count and status as `write(S, B)` where B is a
byte sequence of `len` zero bytes (and produces the same stream state),
and `blocking_write_zeroes(S, len)` likewise equals
`blocking_write(S, B)` — the zero-write variants are observationally
equivalent to writing a materialized buffer of zeroes. -/
theorem write_zeroes_equiv (o : OutputStream) (len : Nat) :
    writeZeroes o len = writeStream o (List.replicate len 0) ∧
    blockingWriteZeroes o len = blockingWrite o (List.replicate len 0) := by
  refine ⟨writeZeroes_eq_write_aux o len, ?_⟩
  cases len with
  | zero =>
      simp [blockingWriteZeroes, blockingWrite, writeZeroes_eq_write_aux]
  | succ m =>
      have hne : List.replicate (m + 1) (0 : Nat) ≠ [] := by
        simp
      simp [blockingWriteZeroes, blockingWrite, hne,
        writeZeroes_eq_write_aux]

/-- Threading the counter through a sequence of `Add` calls computes
the running sum modulo `2^64`. -/
theorem runAdds_mod (calls : List (GogolemTestImpl × Nat)) (t : Nat) :
    runAdds (t % U64) calls = (t + (calls.map Prod.snd).sum) % U64 := by
  induction calls generalizing t with
  | nil => simp [runAdds]
  | cons c calls ih =>
    obtain ⟨e, v⟩ := c
    have step : e.Add (t % U64) v = (t + v) % U64 := by
      simp [GogolemTestImpl.Add, Nat.mod_add_mod]
    calc runAdds (t % U64) ((e, v) :: calls)
        = runAdds ((t + v) % U64) calls := by
          simp [runAdds, step]
      _ = ((t + v) + (calls.map Prod.snd).sum) % U64 := ih (t + v)
      _ = (t + ((v :: calls.map Prod.snd)).sum) % U64 := by
          rw [List.sum_cons, Nat.add_assoc]

/-- C8: For every sequence of `Add` calls with values v1..vn followed
by `Get`: `Get` returns (v1 + ... + vn) modulo 2^64, starting from 0;
`Add` and `Get` act on a single package-level counter shared by every
`GogolemTestImpl` receiver (the methods ignore the receiver, so any mix
of receivers sees the same counter), so each `Add(v)` changes the value
returned by any subsequent `Get` by v modulo 2^64. -/
theorem counter_add_get (calls : List (GogolemTestImpl × Nat))
    (e e' : GogolemTestImpl) (t v : Nat) :
    e.Get (runAdds 0 calls) = (calls.map Prod.snd).sum % U64 ∧
    e.Add t v = e'.Add t v ∧
    e.Get (e'.Add t v) = (e.Get t + v) % U64 := by
  refine ⟨?_, rfl, rfl⟩
  have h0 := runAdds_mod calls 0
  simpa [GogolemTestImpl.Get] using h0

/-- C9: `Publish` returns an error result (`SetErr`) exactly when the
HTTP POST, the response-body read, or the JSON unmarshal of the
response fails, and returns an ok result otherwise; in every case —
success or error — `Publish` leaves the counter `total` unchanged. -/
theorem publish_err_iff_step_fails (total : Nat)
    (postRes : Except String HttpResponse)
    (unmarshal : List Nat → Except String String) :
    (Publish total postRes unmarshal).2 = total ∧
    ((Publish total postRes unmarshal).1 = GoResult.ok ↔
      ∃ resp body message, postRes = Except.ok resp ∧
        resp.bodyRead = Except.ok body ∧
        unmarshal body = Except.ok message) ∧
    ((∃ m, (Publish total postRes unmarshal).1 = GoResult.err m) ↔
      ¬ ∃ resp body message, postRes = Except.ok resp ∧
        resp.bodyRead = Except.ok body ∧
        unmarshal body = Except.ok message) := by
  have hcases : (Publish total postRes unmarshal).2 = total ∧
      ((Publish total postRes unmarshal).1 = GoResult.ok ↔
        ∃ resp body message, postRes = Except.ok resp ∧
          resp.bodyRead = Except.ok body ∧
          unmarshal body = Except.ok message) := by
    cases postRes with
    | error e => simp [Publish]
    | ok resp =>
      cases hb : resp.bodyRead with
      | error e => simp [Publish, hb]
      | ok body =>
        cases hu : unmarshal body with
        | error e => simp [Publish, hb, hu]
        | ok message => simp [Publish, hb, hu]
  refine ⟨hcases.1, hcases.2, ?_⟩
  constructor
  · rintro ⟨m, hm⟩ hok
    rw [hcases.2.mpr hok] at hm
    cases hm
  · intro hno
    cases hres : (Publish total postRes unmarshal).1 with
    | ok => exact absurd (hcases.2.mp hres) hno
    | err m => exact ⟨m, rfl⟩

/-- Closed witness for `publish_err_iff_step_fails`: a run where the
body read fails — the counter is untouched. -/
theorem publish_err_iff_step_fails_witness :
    Publish 7 (Except.ok ⟨Except.error "reset"⟩)
        (fun _ => Except.ok "m") =
      (GoResult.err (sprintln "reset"), 7) ∧
    (Publish 7 (Except.ok ⟨Except.error "reset"⟩)
        (fun _ => Except.ok "m")).2 = 7 :=
  ⟨rfl,
   (publish_err_iff_step_fails 7 (Except.ok ⟨Except.error "reset"⟩)
     (fun _ => Except.ok "m")).1⟩

/-- Appending one element and indexing at the old length yields it. -/
theorem getElem?_append_length (l : List PromiseState) (a : PromiseState) :
    (l ++ [a])[l.length]? = some a := by
  induction l with
  | nil => rfl
  | cons x l ih => simp

/-- Appending one element preserves lookups below the old length. -/
theorem getElem?_append_lt (l : List PromiseState) (a : PromiseState)
    (i : Nat) (h : i < l.length) : (l ++ [a])[i]? = l[i]? := by
  induction l generalizing i with
  | nil => cases h
  | cons x l ih =>
    cases i with
    | zero => simp
    | succ j =>
      have hj : j < l.length := Nat.lt_of_succ_lt_succ h
      simpa using ih j hj

/-- Setting an index and reading it back yields the new element. -/
theorem getElem?_set_length (l : List PromiseState) (b : PromiseState)
    (i : Nat) (h : i < l.length) : (l.set i b)[i]? = some b := by
  induction l generalizing i with
  | nil => cases h
  | cons x l ih =>
    cases i with
    | zero => simp
    | succ j =>
      have hj : j < l.length := Nat.lt_of_succ_lt_succ h
      simpa using ih j hj

/-- C10: `Pause` creates exactly one fresh promise via
`golem-create-promise` and then awaits that same promise, without ever
completing or deleting it, so `Pause` returns only after an external
party completes the promise and returns no value derived from the
payload.  Formally: the created id is at the next oplog index (fresh),
the host record gains exactly that one promise in state `created` and
every previously existing promise is untouched, the await is still
suspended (`none`) after Pause's own calls, and for every payload an
external `golem-complete-promise` transitions the promise and resumes
the await with the payload discarded: the resumed result is `some ()`
identically for all payloads. -/
theorem pause_creates_and_awaits (h : HostState) :
    (Pause h).2.1.oplogIdx = h.promises.length ∧
    (Pause h).2.1.workerName = h.worker ∧
    (Pause h).1.promises[(Pause h).2.1.oplogIdx]? =
      some PromiseState.created ∧
    (Pause h).1.promises.length = h.promises.length + 1 ∧
    (Pause h).1.worker = h.worker ∧
    (∀ i, i < h.promises.length →
      (Pause h).1.promises[i]? = h.promises[i]?) ∧
    (Pause h).2.2 = none ∧
    (∀ payload,
      (golemCompletePromise (Pause h).1 (Pause h).2.1 payload).2 = true ∧
      (golemAwaitPromise
          (golemCompletePromise (Pause h).1 (Pause h).2.1 payload).1
          (Pause h).2.1).map (fun _ => ()) = some ()) := by
  have hraw : (h.promises ++ [PromiseState.created])[h.promises.length]? =
      some PromiseState.created :=
    getElem?_append_length h.promises PromiseState.created
  have hlt : h.promises.length <
      (h.promises ++ [PromiseState.created]).length := by
    simp
  refine ⟨rfl, rfl, ?_, by simp [Pause, golemCreatePromise], rfl,
    ?_, ?_, ?_⟩
  · dsimp [Pause, golemCreatePromise]
    exact hraw
  · intro i hi
    dsimp [Pause, golemCreatePromise]
    exact getElem?_append_lt h.promises PromiseState.created i hi
  · dsimp [Pause, golemCreatePromise, golemAwaitPromise]
    rw [hraw]
    rfl
  · intro payload
    have hsetp : ((h.promises ++ [PromiseState.created]).set
        h.promises.length
        (PromiseState.completed payload))[h.promises.length]? =
        some (PromiseState.completed payload) :=
      getElem?_set_length _ _ _ hlt
    constructor
    · dsimp [Pause, golemCreatePromise, golemCompletePromise]
      rw [hraw]
    · dsimp [Pause, golemCreatePromise, golemCompletePromise]
      rw [hraw]
      dsimp [golemAwaitPromise]
      rw [hsetp]
      rfl

/-- Closed witness for `pause_creates_and_awaits`: a host record with
one already-completed earlier promise; `Pause` allocates oplog index 1,
stays suspended, and resumes with `()` after an external completion. -/
theorem pause_creates_and_awaits_witness :
    (Pause ⟨"w", [PromiseState.completed [3]]⟩).2.1.oplogIdx =
      [PromiseState.completed [3]].length ∧
    (Pause ⟨"w", [PromiseState.completed [3]]⟩).2.1.workerName = "w" ∧
    (Pause ⟨"w", [PromiseState.completed [3]]⟩).1.promises[
        (Pause ⟨"w", [PromiseState.completed [3]]⟩).2.1.oplogIdx]? =
      some PromiseState.created ∧
    (Pause ⟨"w", [PromiseState.completed [3]]⟩).1.promises.length =
      [PromiseState.completed [3]].length + 1 ∧
    (Pause ⟨"w", [PromiseState.completed [3]]⟩).1.worker = "w" ∧
    (∀ i, i < [PromiseState.completed [3]].length →
      (Pause ⟨"w", [PromiseState.completed [3]]⟩).1.promises[i]? =
        [PromiseState.completed [3]][i]?) ∧
    (Pause ⟨"w", [PromiseState.completed [3]]⟩).2.2 = none ∧
    (∀ payload,
      (golemCompletePromise (Pause ⟨"w", [PromiseState.completed [3]]⟩).1
          (Pause ⟨"w", [PromiseState.completed [3]]⟩).2.1 payload).2 =
        true ∧
      (golemAwaitPromise
          (golemCompletePromise
            (Pause ⟨"w", [PromiseState.completed [3]]⟩).1
            (Pause ⟨"w", [PromiseState.completed [3]]⟩).2.1 payload).1
          (Pause ⟨"w", [PromiseState.completed [3]]⟩).2.1).map
        (fun _ => ()) = some ()) :=
  pause_creates_and_awaits ⟨"w", [PromiseState.completed [3]]⟩

end Gogolem
